import Mathlib

set_option maxRecDepth 8000

/-!
Verification of the data-preparation pipeline of the F1 dashboard
(`new_app.py`): CSV-derived column normalisation (`load_csv`), the
sidebar filter chain (`dff`), and the presentation aggregates
(`by_driver`, `driver_points`).  Pandas cells are modelled by `Cell`
(missing / numeric / text), numeric columns by `Option ℚ` (with `none`
for NaN), and dataframes by lists of rows together with a `Schema`
recording which optional source columns exist (column presence is
table-wide in pandas).
-/

/-- A pandas cell: missing (NaN), a numeric value, or a text value. -/
inductive Cell where
  | na : Cell
  | num : ℚ → Cell
  | str : String → Cell
deriving DecidableEq, Repr, Inhabited

/-- Digit-string to natural number; `none` when empty or a non-digit occurs. -/
def parseDigits (cs : List Char) : Option ℕ :=
  if cs.isEmpty then none
  else if cs.all Char.isDigit then
    some (cs.foldl (fun n c => 10 * n + (c.toNat - 48)) 0)
  else none

/-- Decimal-literal parser standing in for the numeric parsing done by
`pd.to_numeric(errors="coerce")` on strings: optional sign, integer part,
optional fractional part; anything else is `none` (coerced to NaN).
No claim depends on exactly which strings parse. -/
def parseNum (s : String) : Option ℚ :=
  let t := s.trim
  let sgn : ℚ := if t.startsWith "-" then -1 else 1
  let body := if t.startsWith "-" || t.startsWith "+" then t.drop 1 else t
  match body.splitOn "." with
  | [w] => (parseDigits w.data).map (fun n => sgn * n)
  | [w, f] =>
    match parseDigits w.data, parseDigits f.data with
    | some wn, some fn => some (sgn * ((wn : ℚ) + (fn : ℚ) / (10 ^ f.length)))
    | _, _ => none
  | _ => none

/-- `pd.to_numeric(·, errors="coerce")` on one cell: NaN stays missing,
numbers pass through, strings parse best-effort to a number or missing. -/
def pdToNumeric : Cell → Option ℚ
  | Cell.na => none
  | Cell.num q => some q
  | Cell.str s => parseNum s

/-- `astype(str)` on one cell: NaN stringifies to the literal "nan";
numbers render via `toString` (the exact float rendering is irrelevant
to every claim); strings pass through. -/
def cellToStr : Cell → String
  | Cell.na => "nan"
  | Cell.num q => toString q
  | Cell.str s => s

/-- Whether `t` is a prefix of `s` (over character lists). -/
def isPrefixChars : List Char → List Char → Bool
  | [], _ => true
  | _ :: _, [] => false
  | a :: as, b :: bs => a == b && isPrefixChars as bs

/-- Whether `t` occurs as a contiguous run inside `s` (over character lists). -/
def occursIn (t : List Char) : List Char → Bool
  | [] => t.isEmpty
  | c :: rest => isPrefixChars t (c :: rest) || occursIn t rest

/-- Substring containment on strings. -/
def strContains (s t : String) : Bool := occursIn t.data s.data

/-- The retirement tokens of the regex `"ret|dnf|dsq|dns|dnc"`. -/
def dnfTokens : List String := ["ret", "dnf", "dsq", "dns", "dnc"]

/-- `t.str.contains("ret|dnf|dsq|dns|dnc", regex=True)`: the regex is an
alternation of literals, so it holds iff some token occurs as a substring. -/
def containsDNFToken (s : String) : Bool := dnfTokens.any (fun t => strContains s t)

/-- ASCII whitespace, as stripped by `str.strip()`. -/
def isSpaceChar (c : Char) : Bool :=
  c == ' ' || c == '\t' || c == '\n' || c == '\r'

/-- `str.strip()`: remove leading and trailing whitespace (an executable
model of string trimming over the character list). -/
def stripStr (s : String) : String :=
  ⟨((s.data.dropWhile isSpaceChar).reverse.dropWhile isSpaceChar).reverse⟩

/-- Which optional source columns the CSV has (column presence is uniform
across rows in a dataframe). `Season` and `RaceNumber` are always present:
the script reads them unconditionally. -/
structure Schema where
  hasPosition : Bool
  hasPosDot : Bool
  hasDriverNumber : Bool
  hasDriverNumber1 : Bool
  hasGrid : Bool
  hasPoints : Bool
  hasTimeRetired : Bool
  hasDriver : Bool
  hasConstructor : Bool
deriving DecidableEq, Repr

/-- One raw CSV row; a field is only meaningful when the corresponding
`Schema` flag is set. -/
structure RawRow where
  season : Cell
  raceNumber : Cell
  position : Cell
  posDot : Cell
  driverNumber : Cell
  driverNumber1 : Cell
  grid : Cell
  points : Cell
  timeRetired : Cell
  driver : Cell
  constructor : Cell
deriving DecidableEq, Repr

/-- One row of the base table produced by `load_csv`. `driver` /
`constructor` are `none` exactly when the source column is absent
(the script only rewrites them when present); `points` is total because
of the `fillna(0)`. -/
structure Row where
  season : Cell
  raceNumber : Cell
  driver : Option String
  constructor : Option String
  driverNumberClean : Cell
  posNum : Option ℚ
  gridNum : Option ℚ
  points : ℚ
  isDNF : Bool
  posGain : Option ℚ
deriving DecidableEq, Repr

/-- The per-row derivation performed by `load_csv` (lines 91–131 of
`new_app.py`): position-column resolution, `DriverNumber` coalescing,
numeric coercions, the DNF heuristic, `PosGain`, and the
stringify-and-strip of `Driver`/`Constructor`.  The `points` else-branch
(`Points` column absent) is a formal default only: on that schema the real
loader raises at line 113 before producing any row, which
`load_csv_checked` models by returning `none`, so the branch is
unobservable through a loaded table. -/
def loadRow (sch : Schema) (r : RawRow) : Row :=
  let posCell : Option Cell :=
    if sch.hasPosition then some r.position
    else if sch.hasPosDot then some r.posDot
    else none
  let posNum : Option ℚ := posCell.bind pdToNumeric
  let gridNum : Option ℚ := if sch.hasGrid then pdToNumeric r.grid else none
  let points : ℚ := (if sch.hasPoints then pdToNumeric r.points else none).getD 0
  let clean : Cell :=
    if sch.hasDriverNumber && sch.hasDriverNumber1 then
      (if r.driverNumber = Cell.na then r.driverNumber1 else r.driverNumber)
    else if sch.hasDriverNumber then r.driverNumber
    else if sch.hasDriverNumber1 then r.driverNumber1
    else Cell.na
  let isDNF : Bool :=
    if sch.hasTimeRetired then
      posNum.isNone || containsDNFToken (cellToStr r.timeRetired).toLower
    else posNum.isNone
  let posGain : Option ℚ :=
    match gridNum, posNum with
    | some g, some p => some (g - p)
    | _, _ => none
  let driver : Option String :=
    if sch.hasDriver then some (stripStr (cellToStr r.driver)) else none
  let constructor : Option String :=
    if sch.hasConstructor then some (stripStr (cellToStr r.constructor)) else none
  ⟨r.season, r.raceNumber, driver, constructor, clean, posNum, gridNum, points, isDNF, posGain⟩

/-- `load_csv` on the whole table: the per-row derivation mapped over the rows.
This is the successful path only; see `load_csv_checked` for the failure
case of line 113. -/
def load_csv (sch : Schema) (rows : List RawRow) : List Row :=
  rows.map (loadRow sch)

/-- The loader with its failure case. Line 113 of `new_app.py` runs
`pd.to_numeric(df.get("Points"), errors="coerce").fillna(0)`: when the CSV
has no `Points` column, `df.get` returns `None`, `to_numeric` on that
scalar returns a scalar NaN, and `.fillna` on a float scalar raises
`AttributeError` — `load_csv` aborts and no table is produced. So a base
table exists exactly when the `Points` column is present; the zero-fill
branch of `loadRow` for an absent column is never observed through this
loader. -/
def load_csv_checked (sch : Schema) (rows : List RawRow) : Option (List Row) :=
  if sch.hasPoints then some (load_csv sch rows) else none

/-- The sidebar selection: multiselect lists plus the two toggles. -/
structure Selection where
  selSeasons : List Cell
  selRaces : List Cell
  selTeams : List String
  selDrivers : List String
  includeDnfs : Bool
  onlyPoints : Bool
deriving DecidableEq, Repr

/-- `Series.isin` on one cell: NaN matches nothing (NaN compares unequal
to everything in pandas); otherwise list membership. -/
def cellIsin (c : Cell) (sel : List Cell) : Bool :=
  match c with
  | Cell.na => false
  | c => sel.contains c

/-- One conditional filter step `if g: dff = dff[pred]` of the filter chain. -/
def condFilter (g : Bool) (p : Row → Bool) (l : List Row) : List Row :=
  if g then l.filter p else l

/-- Row predicate for a `Driver` / `Constructor` multiselect: the value is
always a string in a loaded table; an absent column never reaches this
predicate because of the guard. -/
def strIsin (v : Option String) (sel : List String) : Bool :=
  match v with
  | some s => sel.contains s
  | none => false

/-- The filter chain of `new_app.py` lines 171–177: seasons, races, teams,
drivers, DNFs, positive points, each applied only when its guard holds
(non-empty selection / toggle / column presence). -/
def dff (sch : Schema) (sel : Selection) (df : List Row) : List Row :=
  condFilter sel.onlyPoints (fun r => decide (0 < r.points))
    (condFilter (!sel.includeDnfs) (fun r => !r.isDNF)
      (condFilter (!sel.selDrivers.isEmpty && sch.hasDriver) (fun r => strIsin r.driver sel.selDrivers)
        (condFilter (!sel.selTeams.isEmpty && sch.hasConstructor) (fun r => strIsin r.constructor sel.selTeams)
          (condFilter (!sel.selRaces.isEmpty) (fun r => cellIsin r.raceNumber sel.selRaces)
            (condFilter (!sel.selSeasons.isEmpty) (fun r => cellIsin r.season sel.selSeasons) df)))))

/-- The same filter chain with the teams and drivers steps applied in the
opposite order. -/
def dffSwap (sch : Schema) (sel : Selection) (df : List Row) : List Row :=
  condFilter sel.onlyPoints (fun r => decide (0 < r.points))
    (condFilter (!sel.includeDnfs) (fun r => !r.isDNF)
      (condFilter (!sel.selTeams.isEmpty && sch.hasConstructor) (fun r => strIsin r.constructor sel.selTeams)
        (condFilter (!sel.selDrivers.isEmpty && sch.hasDriver) (fun r => strIsin r.driver sel.selDrivers)
          (condFilter (!sel.selRaces.isEmpty) (fun r => cellIsin r.raceNumber sel.selRaces)
            (condFilter (!sel.selSeasons.isEmpty) (fun r => cellIsin r.season sel.selSeasons) df)))))

/-- Insert `x` behind every element that strictly precedes it (`prec y x`):
a stable insertion step. -/
def insertSorted (prec : α → α → Bool) (x : α) : List α → List α
  | [] => [x]
  | y :: ys => if prec y x then y :: insertSorted prec x ys else x :: y :: ys

/-- Stable insertion sort: the model of `sort_values` (an earlier row moves
past a later one only when the later one strictly precedes it, so ties keep
their input order). -/
def isort (prec : α → α → Bool) : List α → List α
  | [] => []
  | x :: xs => insertSorted prec x (isort prec xs)

/-- Strict ascending-string precedence (groupby emits group keys in
ascending key order). -/
def strLT (a b : String) : Bool := decide (a < b)

/-- Strict descending-points precedence for `sort_values("Points",
ascending=False)` on (driver, points) pairs. -/
def ptsGT (a b : String × ℚ) : Bool := decide (b.2 < a.2)

/-- The sum of the `Points` column of a list of rows. -/
def sumPoints (l : List Row) : ℚ := (l.map Row.points).sum

/-- The distinct `Driver` keys of a table in first-encounter order; rows
whose `Driver` column is absent carry no group key (pandas `groupby` drops
missing keys; in a loaded table with a `Driver` column none are missing). -/
def keyList (rows : List Row) : List String := (rows.filterMap Row.driver).dedup

/-- The summed `Points` of the group of driver `k`. -/
def sumFor (rows : List Row) (k : String) : ℚ :=
  ((rows.filter (fun r => r.driver == some k)).map Row.points).sum

/-- `dff.groupby("Driver", as_index=False)["Points"].sum()`: one (driver,
summed points) pair per distinct driver, keys in ascending order
(`groupby` sorts its keys by default). -/
def by_driver_full (rows : List Row) : List (String × ℚ) :=
  (isort strLT (keyList rows)).map (fun k => (k, sumFor rows k))

/-- The grouped sums after `.sort_values("Points", ascending=False)`,
before the `.head(20)` truncation. -/
def by_driver_all (rows : List Row) : List (String × ℚ) :=
  isort ptsGT (by_driver_full rows)

/-- The `by_driver` aggregate of `new_app.py` lines 202–207: group by
`Driver`, sum `Points`, sort descending, take the top 20. -/
def by_driver (rows : List Row) : List (String × ℚ) :=
  (by_driver_all rows).take 20

/-- One row of the standings aggregate: (Season, RaceKey, Driver, Points). -/
structure SRow where
  season : ℚ
  raceKey : ℚ
  driver : String
  points : ℚ
deriving DecidableEq, Repr

/-- The grouping key of the standings aggregate. -/
def sKey (r : SRow) : ℚ × ℚ × String := (r.season, r.raceKey, r.driver)

/-- Extraction of the standings grouping data from a filtered row:
`RaceKey = pd.to_numeric(RaceNumber)`; `groupby` drops rows whose key is
missing, so rows with an unparseable `RaceNumber`, an absent `Driver`
column, or a non-numeric `Season` are dropped (the data model fixes
`Season` as an integer year, so `Season` keys are modelled as numeric). -/
def srowOf (r : Row) : Option SRow :=
  match r.season, pdToNumeric r.raceNumber, r.driver with
  | Cell.num s, some rk, some d => some ⟨s, rk, d, r.points⟩
  | _, _, _ => none

/-- The rows that survive into the standings grouping. -/
def srows (rows : List Row) : List SRow :=
  rows.filterMap srowOf

/-- Strict ascending lexicographic precedence on standings keys. -/
def sKeyLT (a b : ℚ × ℚ × String) : Bool :=
  decide (a.1 < b.1) ||
    (a.1 == b.1 && (decide (a.2.1 < b.2.1) ||
      (a.2.1 == b.2.1 && decide (a.2.2 < b.2.2))))

/-- Strict ascending precedence on (Season, RaceKey) for
`sort_values(["Season", "RaceKey"])`. -/
def seasonRaceLT (a b : SRow) : Bool :=
  decide (a.season < b.season) || (a.season == b.season && decide (a.raceKey < b.raceKey))

/-- The summed `Points` of one (Season, RaceKey, Driver) group. -/
def sumSFor (rows : List SRow) (k : ℚ × ℚ × String) : ℚ :=
  ((rows.filter (fun r => sKey r == k)).map SRow.points).sum

/-- `d.groupby(["Season", "RaceKey", "Driver"], as_index=False)["Points"].sum()`:
one row per distinct key, keys in ascending order, `Points` summed. -/
def groupSR (rows : List SRow) : List SRow :=
  (isort sKeyLT ((rows.map sKey).dedup)).map (fun k => ⟨k.1, k.2.1, k.2.2, sumSFor rows k⟩)

/-- The `driver_points` aggregate of `new_app.py` lines 267–274 up to the
sort: group by (Season, RaceKey, Driver), sum `Points`, then
`sort_values(["Season", "RaceKey"])`. -/
def driver_points (rows : List Row) : List SRow :=
  isort seasonRaceLT (groupSR (srows rows))

/-- The running `CumPoints` value at position `i`:
`groupby(["Season", "Driver"])["Points"].cumsum()` assigns to each row the
sum of the `Points` of the rows up to and including it that share its
(Season, Driver). -/
def CumPoints (l : List SRow) (i : Fin l.length) : ℚ :=
  (((l.take (i.1 + 1)).filter
      (fun r => r.season == (l.get i).season && r.driver == (l.get i).driver)).map
    SRow.points).sum

/-! Generic lemmas about the stable insertion sort. -/

theorem perm_insertSorted (prec : α → α → Bool) (x : α) :
    ∀ l : List α, List.Perm (insertSorted prec x l) (x :: l)
  | [] => List.Perm.refl _
  | y :: ys => by
    unfold insertSorted
    cases h : prec y x
    · simp only [Bool.false_eq_true, if_false]
      exact List.Perm.refl _
    · simp only [if_true]
      exact List.Perm.trans ((perm_insertSorted prec x ys).cons y) (List.Perm.swap x y ys)

theorem perm_isort (prec : α → α → Bool) : ∀ l : List α, List.Perm (isort prec l) l
  | [] => List.Perm.refl _
  | x :: xs =>
    List.Perm.trans (perm_insertSorted prec x (isort prec xs)) ((perm_isort prec xs).cons x)

theorem mem_isort {prec : α → α → Bool} {l : List α} {a : α} :
    a ∈ isort prec l ↔ a ∈ l :=
  (perm_isort prec l).mem_iff

theorem pairwise_trivial (l : List α) : l.Pairwise (fun _ _ => True) := by
  induction l with
  | nil => exact List.Pairwise.nil
  | cons a l ih => exact List.Pairwise.cons (fun _ _ => trivial) ih

/-- Inserting an element that came earlier in the input behind exactly the
elements that strictly precede it preserves the sortedness-with-stability
invariant: afterwards every later element either strictly follows or is a
tie that already followed in the input order (`S`). -/
theorem pairwise_insertSorted (prec : α → α → Bool) (S : α → α → Prop)
    (asym : ∀ a b, prec a b = true → prec b a = false)
    (ctrans : ∀ a b c, prec b a = false → prec c b = false → prec c a = false)
    (x : α) :
    ∀ l : List α,
      l.Pairwise (fun a b => prec b a = false ∧ (prec a b = true ∨ S a b)) →
      (∀ y ∈ l, S x y) →
      (insertSorted prec x l).Pairwise
        (fun a b => prec b a = false ∧ (prec a b = true ∨ S a b))
  | [], _, _ => List.Pairwise.cons (by intro y hy; cases hy) List.Pairwise.nil
  | y :: ys, h, hx => by
    have h1 : ∀ z ∈ ys, prec z y = false ∧ (prec y z = true ∨ S y z) :=
      fun z hz => List.rel_of_pairwise_cons h hz
    have h2 := List.Pairwise.of_cons h
    unfold insertSorted
    cases hp : prec y x
    · simp only [Bool.false_eq_true, if_false]
      refine List.Pairwise.cons ?_ h
      intro z hz
      rcases List.mem_cons.mp hz with rfl | hz
      · exact ⟨hp, Or.inr (hx z (List.mem_cons_self z ys))⟩
      · exact ⟨ctrans x y z hp (h1 z hz).1, Or.inr (hx z (List.mem_cons_of_mem y hz))⟩
    · simp only [if_true]
      refine List.Pairwise.cons ?_ (pairwise_insertSorted prec S asym ctrans x ys h2 ?_)
      · intro z hz
        rcases List.mem_cons.mp ((perm_insertSorted prec x ys).mem_iff.mp hz) with rfl | hz
        · exact ⟨asym y z hp, Or.inl hp⟩
        · exact h1 z hz
      · intro z hz; exact hx z (List.mem_cons_of_mem y hz)

/-- The stable insertion sort of a list whose input order is recorded by
`S`: in the output, every later element either strictly follows the
earlier one or ties with it and followed it already in the input. -/
theorem pairwise_isort (prec : α → α → Bool) (S : α → α → Prop)
    (asym : ∀ a b, prec a b = true → prec b a = false)
    (ctrans : ∀ a b c, prec b a = false → prec c b = false → prec c a = false) :
    ∀ l : List α, l.Pairwise S →
      (isort prec l).Pairwise (fun a b => prec b a = false ∧ (prec a b = true ∨ S a b))
  | [], _ => List.Pairwise.nil
  | x :: xs, h => by
    have hx : ∀ y ∈ xs, S x y := fun y hy => List.rel_of_pairwise_cons h hy
    refine pairwise_insertSorted prec S asym ctrans x (isort prec xs)
      (pairwise_isort prec S asym ctrans xs (List.Pairwise.of_cons h)) ?_
    intro y hy
    exact hx y (mem_isort.mp hy)

/-! Lemmas about the conditional filter steps. -/

theorem condFilter_eq_filter (g : Bool) (p : Row → Bool) (l : List Row) :
    condFilter g p l = l.filter (fun r => !g || p r) := by
  cases g <;> simp [condFilter]

theorem condFilter_comm (g h : Bool) (p q : Row → Bool) (l : List Row) :
    condFilter g p (condFilter h q l) = condFilter h q (condFilter g p l) := by
  cases g <;> cases h <;> simp [condFilter, List.filter_filter, Bool.and_comm]

theorem mem_of_mem_condFilter {g : Bool} {p : Row → Bool} {l : List Row} {r : Row}
    (h : r ∈ condFilter g p l) : r ∈ l := by
  cases g
  · exact h
  · exact List.mem_of_mem_filter h

/-! Order facts about the concrete precedence relations. -/

theorem strLT_asymm : ∀ a b : String, strLT a b = true → strLT b a = false := by
  intro a b h
  simp only [strLT, decide_eq_true_eq] at h
  simp only [strLT, decide_eq_false_iff_not]
  exact not_lt_of_lt h

theorem strLT_ctrans :
    ∀ a b c : String, strLT b a = false → strLT c b = false → strLT c a = false := by
  intro a b c hba hcb
  simp only [strLT, decide_eq_false_iff_not, not_lt] at hba hcb ⊢
  exact le_trans hba hcb

theorem ptsGT_asymm : ∀ a b : String × ℚ, ptsGT a b = true → ptsGT b a = false := by
  intro a b h
  simp only [ptsGT, decide_eq_true_eq] at h
  simp only [ptsGT, decide_eq_false_iff_not]
  exact not_lt_of_lt h

theorem ptsGT_ctrans :
    ∀ a b c : String × ℚ, ptsGT b a = false → ptsGT c b = false → ptsGT c a = false := by
  intro a b c hba hcb
  simp only [ptsGT, decide_eq_false_iff_not, not_lt] at hba hcb ⊢
  exact le_trans hcb hba

theorem seasonRaceLT_asymm :
    ∀ a b : SRow, seasonRaceLT a b = true → seasonRaceLT b a = false := by
  intro a b h
  simp only [seasonRaceLT, Bool.or_eq_true, Bool.and_eq_true, decide_eq_true_eq,
    beq_iff_eq] at h
  simp only [seasonRaceLT, Bool.or_eq_false_iff, Bool.and_eq_false_iff,
    decide_eq_false_iff_not, not_lt, beq_eq_false_iff_ne, ne_eq]
  rcases h with h | ⟨he, hr⟩
  · exact ⟨le_of_lt h, Or.inl (fun hh => absurd (hh ▸ h) (lt_irrefl _))⟩
  · exact ⟨le_of_eq he, Or.inr (le_of_lt hr)⟩

theorem seasonRaceLT_ctrans :
    ∀ a b c : SRow, seasonRaceLT b a = false → seasonRaceLT c b = false →
      seasonRaceLT c a = false := by
  intro a b c hba hcb
  simp only [seasonRaceLT, Bool.or_eq_false_iff, Bool.and_eq_false_iff,
    decide_eq_false_iff_not, not_lt, beq_eq_false_iff_ne, ne_eq] at hba hcb ⊢
  obtain ⟨hba1, hba2⟩ := hba
  obtain ⟨hcb1, hcb2⟩ := hcb
  refine ⟨le_trans hba1 hcb1, ?_⟩
  by_cases he : c.season = a.season
  · right
    have hbs : b.season = a.season := le_antisymm (he ▸ hcb1) hba1
    rcases hba2 with h | h
    · exact absurd hbs h
    · rcases hcb2 with h2 | h2
      · exact absurd (he.trans hbs.symm) h2
      · exact le_trans h h2
  · exact Or.inl he

/-- `seasonRaceLT (get j) (get i) = false` plus equal seasons forces the
race keys to be in order. -/
theorem raceKey_le_of_not_lt {a b : SRow} (h : seasonRaceLT b a = false)
    (hs : a.season = b.season) : a.raceKey ≤ b.raceKey := by
  simp only [seasonRaceLT, Bool.or_eq_false_iff, Bool.and_eq_false_iff,
    decide_eq_false_iff_not, not_lt, beq_eq_false_iff_ne, ne_eq] at h
  rcases h.2 with h2 | h2
  · exact absurd hs.symm h2
  · exact h2

/-! Sums split along a partition by group key. -/

theorem sumPoints_cons (r : Row) (l : List Row) :
    sumPoints (r :: l) = r.points + sumPoints l := by
  simp [sumPoints]

theorem sumPoints_filter_split (p : Row → Bool) (rows : List Row) :
    sumPoints rows = sumPoints (rows.filter p) + sumPoints (rows.filter (fun r => !(p r))) := by
  induction rows with
  | nil => simp [sumPoints]
  | cons r l ih =>
    cases hp : p r <;>
      simp [List.filter_cons, hp, sumPoints_cons, ih] <;> ring

theorem sumFor_filter_ne (rows : List Row) (k w : String) (hne : w ≠ k) :
    sumFor (rows.filter (fun r => !(r.driver == some k))) w = sumFor rows w := by
  unfold sumFor
  rw [List.filter_filter]
  refine congrArg _ (congrArg _ (List.filter_congr ?_))
  intro r _
  cases hd : (r.driver == some w)
  · simp
  · have : r.driver = some w := by simpa using hd
    simp [this, hne]

theorem sum_filter_groups :
    ∀ (ks : List String) (rows : List Row), ks.Nodup →
      (∀ r ∈ rows, ∃ k ∈ ks, r.driver = some k) →
      (ks.map (fun k => sumFor rows k)).sum = sumPoints rows := by
  intro ks
  induction ks with
  | nil =>
    intro rows _ hcov
    have : rows = [] := by
      cases rows with
      | nil => rfl
      | cons r l =>
        obtain ⟨k, hk, _⟩ := hcov r (List.mem_cons_self r l)
        exact absurd hk (List.not_mem_nil k)
    subst this
    simp [sumPoints]
  | cons k ks ih =>
    intro rows hnd hcov
    have hnd' := List.Nodup.of_cons hnd
    have hk_not : k ∉ ks := by
      intro hmem
      exact (List.nodup_cons.mp hnd).1 hmem
    have hsplit := sumPoints_filter_split (fun r => r.driver == some k) rows
    have hrest :
        (ks.map (fun w => sumFor rows w)).sum =
          sumPoints (rows.filter (fun r => !(r.driver == some k))) := by
      rw [← ih (rows.filter (fun r => !(r.driver == some k))) hnd' ?_]
      · refine congrArg _ (List.map_congr_left ?_)
        intro w hw
        have hne : w ≠ k := fun he => hk_not (he ▸ hw)
        exact (sumFor_filter_ne rows k w hne).symm
      · intro r hr
        have hmem := List.mem_of_mem_filter hr
        have hpred := List.of_mem_filter hr
        obtain ⟨w, hw, hdw⟩ := hcov r hmem
        rcases List.mem_cons.mp hw with rfl | hw'
        · exfalso
          rw [hdw] at hpred
          simp at hpred
        · exact ⟨w, hw', hdw⟩
    have hfirst : sumFor rows k = sumPoints (rows.filter (fun r => r.driver == some k)) := rfl
    calc ((k :: ks).map (fun w => sumFor rows w)).sum
        = sumFor rows k + (ks.map (fun w => sumFor rows w)).sum := by simp
      _ = sumPoints (rows.filter (fun r => r.driver == some k)) +
            sumPoints (rows.filter (fun r => !(r.driver == some k))) := by
          rw [hfirst, hrest]
      _ = sumPoints rows := (sumPoints_filter_split _ rows).symm

/-! Concrete fixtures used by witnesses and counterexamples. -/

/-- A schema in which every optional column exists (with `Position` as the
position column). -/
def schFull : Schema := ⟨true, false, true, true, true, true, true, true, true⟩

/-- A raw row with a missing position and the status text "Retired". -/
def rawC1 : RawRow :=
  ⟨Cell.num 2021, Cell.num 1, Cell.na, Cell.na, Cell.num 44, Cell.na, Cell.num 5,
    Cell.num 10, Cell.str "Retired", Cell.str " Lewis ", Cell.str "Mercedes"⟩

/-- A raw row with grid 5 and finishing position 3. -/
def rawC2 : RawRow :=
  ⟨Cell.num 2021, Cell.num 1, Cell.num 3, Cell.na, Cell.num 44, Cell.na, Cell.num 5,
    Cell.num 15, Cell.str "1:30.000", Cell.str "Lewis", Cell.str "Mercedes"⟩

/-- A raw row with `DriverNumber` missing and `DriverNumber.1` = "44". -/
def rawC3 : RawRow :=
  ⟨Cell.num 2021, Cell.num 1, Cell.num 3, Cell.na, Cell.na, Cell.str "44", Cell.num 5,
    Cell.num 15, Cell.str "1:30.000", Cell.str "Lewis", Cell.str "Mercedes"⟩

/-- A raw row whose cells are all missing. -/
def rawAllNa : RawRow :=
  ⟨Cell.na, Cell.na, Cell.na, Cell.na, Cell.na, Cell.na, Cell.na, Cell.na, Cell.na,
    Cell.na, Cell.na⟩

/-- Claim C1: with a `Time/Retired` column, `IsDNF` holds iff `Pos_num` is
missing or the lowercased status text contains one of the retirement
tokens; without it, iff `Pos_num` is missing; in all cases a missing
`Pos_num` forces `IsDNF`. -/
theorem C1_isDNF_rule (sch : Schema) (r : RawRow) :
    (sch.hasTimeRetired = true →
      ((loadRow sch r).isDNF = true ↔
        ((loadRow sch r).posNum = none ∨
          containsDNFToken (cellToStr r.timeRetired).toLower = true))) ∧
    (sch.hasTimeRetired = false →
      ((loadRow sch r).isDNF = true ↔ (loadRow sch r).posNum = none)) ∧
    ((loadRow sch r).posNum = none → (loadRow sch r).isDNF = true) := by
  have hdef : (loadRow sch r).isDNF =
      (if sch.hasTimeRetired then
        ((loadRow sch r).posNum).isNone ||
          containsDNFToken (cellToStr r.timeRetired).toLower
      else ((loadRow sch r).posNum).isNone) := rfl
  refine ⟨?_, ?_, ?_⟩
  · intro h
    simp [hdef, h, Option.isNone_iff_eq_none]
  · intro h
    simp [hdef, h, Option.isNone_iff_eq_none]
  · intro h
    cases ht : sch.hasTimeRetired <;> simp [hdef, ht, h, Option.isNone_iff_eq_none]

theorem C1_witness : (loadRow schFull rawC1).isDNF = true :=
  ((C1_isDNF_rule schFull rawC1).1 rfl).mpr (Or.inl (by decide))

/-- Claim C2: `PosGain = Grid_num − Pos_num` when both are present, and
missing as soon as either is missing. -/
theorem C2_posGain (sch : Schema) (r : RawRow) :
    (∀ g p : ℚ, (loadRow sch r).gridNum = some g → (loadRow sch r).posNum = some p →
      (loadRow sch r).posGain = some (g - p)) ∧
    (((loadRow sch r).gridNum = none ∨ (loadRow sch r).posNum = none) →
      (loadRow sch r).posGain = none) := by
  have hdef : (loadRow sch r).posGain =
      match (loadRow sch r).gridNum, (loadRow sch r).posNum with
      | some g, some p => some (g - p)
      | _, _ => none := rfl
  constructor
  · intro g p hg hp
    rw [hdef, hg, hp]
  · intro h
    rcases h with h | h
    · rw [hdef, h]
    · rw [hdef, h]
      cases (loadRow sch r).gridNum <;> rfl

theorem C2_witness : (loadRow schFull rawC2).posGain = some 2 := by
  have h := (C2_posGain schFull rawC2).1 5 3 rfl rfl
  rw [h]
  norm_num

/-- Claim C3: `DriverNumber_clean` coalesces the two duplicate columns:
with both present in the schema, the first column's value wins where it is
non-missing, else the second column's value; with one column, that
column's value; with neither, missing. -/
theorem C3_driver_number_coalesce (sch : Schema) (r : RawRow) :
    (sch.hasDriverNumber = true → sch.hasDriverNumber1 = true →
      ((r.driverNumber ≠ Cell.na →
          (loadRow sch r).driverNumberClean = r.driverNumber) ∧
       (r.driverNumber = Cell.na →
          (loadRow sch r).driverNumberClean = r.driverNumber1))) ∧
    (sch.hasDriverNumber = true → sch.hasDriverNumber1 = false →
      (loadRow sch r).driverNumberClean = r.driverNumber) ∧
    (sch.hasDriverNumber = false → sch.hasDriverNumber1 = true →
      (loadRow sch r).driverNumberClean = r.driverNumber1) ∧
    (sch.hasDriverNumber = false → sch.hasDriverNumber1 = false →
      (loadRow sch r).driverNumberClean = Cell.na) := by
  refine ⟨?_, ?_, ?_, ?_⟩ <;> intro h1 h2
  · constructor <;> intro ha <;> simp [loadRow, h1, h2, ha]
  · simp [loadRow, h1, h2]
  · simp [loadRow, h1, h2]
  · simp [loadRow, h1, h2]

theorem C3_witness : (loadRow schFull rawC3).driverNumberClean = Cell.str "44" :=
  ((C3_driver_number_coalesce schFull rawC3).1 rfl rfl).2 rfl

/-- Claim C4 fails as stated: at a schema where every column (including
`Points`) exists, so the loader genuinely produces a table, a row whose
two `DriverNumber` cells are both missing gets a missing
`DriverNumber_clean` even though both source columns exist. -/
theorem C4_counterexample :
    (schFull.hasDriverNumber || schFull.hasDriverNumber1) = true ∧
    load_csv_checked schFull [rawAllNa] = some [loadRow schFull rawAllNa] ∧
    (loadRow schFull rawAllNa).driverNumberClean = Cell.na := by
  exact ⟨rfl, rfl, rfl⟩

/-- Claim C4 (amended): if at least one of the two duplicate columns
exists and holds a present value in the row, `DriverNumber_clean` is
non-missing there; if neither column exists it is missing. -/
theorem C4_driver_number_populated (sch : Schema) (r : RawRow) :
    (((sch.hasDriverNumber = true ∧ r.driverNumber ≠ Cell.na) ∨
      (sch.hasDriverNumber1 = true ∧ r.driverNumber1 ≠ Cell.na)) →
        (loadRow sch r).driverNumberClean ≠ Cell.na) ∧
    (sch.hasDriverNumber = false → sch.hasDriverNumber1 = false →
      (loadRow sch r).driverNumberClean = Cell.na) := by
  constructor
  · intro h
    rcases h with ⟨h1, h2⟩ | ⟨h1, h2⟩
    · cases hb : sch.hasDriverNumber1 <;> simp [loadRow, h1, hb, h2]
    · cases ha : sch.hasDriverNumber
      · simp [loadRow, h1, ha, h2]
      · by_cases hna : r.driverNumber = Cell.na
        · simp [loadRow, h1, ha, hna, h2]
        · simp [loadRow, h1, ha, hna]
  · intro h1 h2
    simp [loadRow, h1, h2]

theorem C4_witness : (loadRow schFull rawC3).driverNumberClean ≠ Cell.na :=
  (C4_driver_number_populated schFull rawC3).1 (Or.inr ⟨rfl, by decide⟩)

/-- Claim C9: on every successfully loaded base table (loading requires the
`Points` column to exist — with it absent line 113 raises, modelled by
`load_csv_checked` returning `none`), every raw row yields a row of the
table whose `Points` is total: a missing or unparseable source value
becomes 0, and a parsed value is kept exactly. -/
theorem C9_points_total (sch : Schema) (raws : List RawRow) (df : List Row)
    (hload : load_csv_checked sch raws = some df) (raw : RawRow) (hraw : raw ∈ raws) :
    loadRow sch raw ∈ df ∧
    (pdToNumeric raw.points = none → (loadRow sch raw).points = 0) ∧
    (∀ q : ℚ, pdToNumeric raw.points = some q → (loadRow sch raw).points = q) := by
  unfold load_csv_checked at hload
  have hp : sch.hasPoints = true := by
    cases h : sch.hasPoints
    · rw [h] at hload
      cases hload
    · rfl
  rw [hp] at hload
  simp only [if_true, Option.some.injEq] at hload
  subst hload
  have hdef : (loadRow sch raw).points =
      (if sch.hasPoints then pdToNumeric raw.points else none).getD 0 := rfl
  refine ⟨List.mem_map_of_mem (loadRow sch) hraw, ?_, ?_⟩
  · intro h
    rw [hdef, hp, if_pos rfl, h]
    rfl
  · intro q h
    rw [hdef, hp, if_pos rfl, h]
    rfl

theorem C9_witness : (loadRow schFull rawAllNa).points = 0 :=
  (C9_points_total schFull [rawAllNa] (load_csv schFull [rawAllNa]) rfl rawAllNa
    (List.mem_cons_self rawAllNa [])).2.1 rfl

/-- Claim C10: when the `Driver` (resp. `Constructor`) column exists, the
loaded value is always the trimmed stringification of the source cell —
never missing — and a missing source cell becomes the literal string
"nan". -/
theorem C10_driver_constructor_strings (sch : Schema) (r : RawRow) :
    (sch.hasDriver = true →
      (loadRow sch r).driver = some (stripStr (cellToStr r.driver)) ∧
      (r.driver = Cell.na → (loadRow sch r).driver = some "nan")) ∧
    (sch.hasConstructor = true →
      (loadRow sch r).constructor = some (stripStr (cellToStr r.constructor)) ∧
      (r.constructor = Cell.na → (loadRow sch r).constructor = some "nan")) := by
  constructor
  · intro h
    refine ⟨by simp [loadRow, h], ?_⟩
    intro hna
    simp [loadRow, h, hna, cellToStr]
    decide
  · intro h
    refine ⟨by simp [loadRow, h], ?_⟩
    intro hna
    simp [loadRow, h, hna, cellToStr]
    decide

theorem C10_witness : (loadRow schFull rawAllNa).driver = some "nan" :=
  ((C10_driver_constructor_strings schFull rawAllNa).1 rfl).2 rfl

/-- Claim C7: the filter steps commute (teams-then-drivers equals
drivers-then-teams), and the sequential chain equals one filter by the
conjunction of all (guarded) predicates. -/
theorem C7_filter_commutative (sch : Schema) (sel : Selection) (df : List Row) :
    dffSwap sch sel df = dff sch sel df ∧
    dff sch sel df = df.filter (fun r =>
      (!sel.onlyPoints || decide (0 < r.points)) &&
      ((!(!sel.includeDnfs) || !r.isDNF) &&
       ((!(!sel.selDrivers.isEmpty && sch.hasDriver) || strIsin r.driver sel.selDrivers) &&
        ((!(!sel.selTeams.isEmpty && sch.hasConstructor) || strIsin r.constructor sel.selTeams) &&
         ((!(!sel.selRaces.isEmpty) || cellIsin r.raceNumber sel.selRaces) &&
          (!(!sel.selSeasons.isEmpty) || cellIsin r.season sel.selSeasons)))))) := by
  constructor
  · unfold dff dffSwap
    exact congrArg _ (congrArg _ (condFilter_comm _ _ _ _ _))
  · unfold dff
    simp only [condFilter_eq_filter, List.filter_filter]

/-- In a loaded table the total of the per-driver group sums is the total
of the `Points` column, as long as every row carries a driver key. -/
theorem sum_by_driver_all (rows : List Row)
    (hall : ∀ r ∈ rows, (r.driver).isSome = true) :
    ((by_driver_all rows).map Prod.snd).sum = sumPoints rows := by
  have hperm : List.Perm (by_driver_all rows) (by_driver_full rows) :=
    perm_isort _ _
  rw [(hperm.map Prod.snd).sum_eq]
  unfold by_driver_full
  rw [List.map_map]
  have hperm2 : List.Perm (isort strLT (keyList rows)) (keyList rows) := perm_isort _ _
  rw [(hperm2.map _).sum_eq]
  have hfun : (keyList rows).map (Prod.snd ∘ fun k => (k, sumFor rows k)) =
      (keyList rows).map (fun k => sumFor rows k) :=
    List.map_congr_left (fun k _ => rfl)
  rw [hfun]
  apply sum_filter_groups (keyList rows) rows (List.nodup_dedup _)
  intro r hr
  obtain ⟨d, hd⟩ := Option.isSome_iff_exists.mp (hall r hr)
  exact ⟨d, List.mem_dedup.mpr (List.mem_filterMap.mpr ⟨r, hr, hd⟩), hd⟩

/-- Claim C8: over any loaded-and-filtered table (with the `Driver` column
present in the source), the sum of the per-driver summed points of the full
grouped ranking equals the sum of the `Points` column of the filtered
table. -/
theorem C8_points_conservation (sch : Schema) (sel : Selection) (raws : List RawRow)
    (h : sch.hasDriver = true) :
    ((by_driver_all (dff sch sel (load_csv sch raws))).map Prod.snd).sum =
      sumPoints (dff sch sel (load_csv sch raws)) := by
  apply sum_by_driver_all
  intro r hr
  have hmem : r ∈ load_csv sch raws := by
    unfold dff at hr
    exact mem_of_mem_condFilter (mem_of_mem_condFilter (mem_of_mem_condFilter
      (mem_of_mem_condFilter (mem_of_mem_condFilter (mem_of_mem_condFilter hr)))))
  obtain ⟨raw, _, rfl⟩ := List.mem_map.mp hmem
  simp [loadRow, h]

/-- A selection with empty multiselects and default toggles. -/
def selAll : Selection := ⟨[], [], [], [], true, false⟩

theorem C8_witness :
    ((by_driver_all (dff schFull selAll (load_csv schFull [rawC1, rawC2]))).map
        Prod.snd).sum =
      sumPoints (dff schFull selAll (load_csv schFull [rawC1, rawC2])) :=
  C8_points_conservation schFull selAll [rawC1, rawC2] rfl

/-- The sorted group keys are strictly ascending. -/
theorem keys_sorted (rows : List Row) :
    (isort strLT (keyList rows)).Pairwise (fun a b => a < b) := by
  have hnd : (keyList rows).Nodup := List.nodup_dedup _
  have h := pairwise_isort strLT (fun a b => a ≠ b) strLT_asymm strLT_ctrans
    (keyList rows) hnd
  refine h.imp ?_
  intro a b hab
  obtain ⟨h1, h2⟩ := hab
  have hle : a ≤ b := by
    have := h1
    simp only [strLT, decide_eq_false_iff_not, not_lt] at this
    exact this
  rcases h2 with h2 | h2
  · simp only [strLT, decide_eq_true_eq] at h2
    exact h2
  · exact lt_of_le_of_ne hle h2

/-- The grouped ranking lists drivers in strictly ascending name order
before the points sort. -/
theorem by_driver_full_names_sorted (rows : List Row) :
    (by_driver_full rows).Pairwise (fun a b => a.1 < b.1) := by
  unfold by_driver_full
  rw [List.pairwise_map]
  exact keys_sorted rows

/-- Claim C6 (amended): `by_driver` takes the first 20 entries of the
grouped sums sorted by points descending; each entry carries its driver's
total; and ties appear in ascending driver-name order (the grouping step
emits keys sorted by name and the sort is modelled stable) — not in
first-encounter order. -/
theorem C6_by_driver_ranking (rows : List Row) :
    by_driver rows = (by_driver_all rows).take 20 ∧
    (by_driver rows).Pairwise (fun a b => b.2 < a.2 ∨ (a.2 = b.2 ∧ a.1 < b.1)) ∧
    (∀ p ∈ by_driver rows, p.2 = sumFor rows p.1) ∧
    (by_driver rows).length ≤ 20 := by
  refine ⟨rfl, ?_, ?_, ?_⟩
  · have hfull := by_driver_full_names_sorted rows
    have h := pairwise_isort ptsGT (fun a b => a.1 < b.1) ptsGT_asymm ptsGT_ctrans
      (by_driver_full rows) hfull
    have h2 : (by_driver_all rows).Pairwise
        (fun a b => b.2 < a.2 ∨ (a.2 = b.2 ∧ a.1 < b.1)) := by
      refine h.imp ?_
      intro a b hab
      obtain ⟨h1, hor⟩ := hab
      have hle : b.2 ≤ a.2 := by
        simp only [ptsGT, decide_eq_false_iff_not, not_lt] at h1
        exact h1
      rcases hor with hgt | hname
      · simp only [ptsGT, decide_eq_true_eq] at hgt
        exact Or.inl hgt
      · rcases lt_or_eq_of_le hle with hlt | heq
        · exact Or.inl hlt
        · exact Or.inr ⟨heq.symm, hname⟩
    exact List.Pairwise.sublist (List.take_sublist 20 _) h2
  · intro p hp
    have hmem : p ∈ by_driver_all rows := List.mem_of_mem_take hp
    have hmem2 : p ∈ by_driver_full rows := (perm_isort _ _).mem_iff.mp hmem
    obtain ⟨k, _, rfl⟩ := List.mem_map.mp hmem2
    rfl
  · exact List.length_take_le 20 _

/-- A finisher row for driver "B" encountered first in the table. -/
def rowB : Row := ⟨Cell.num 2021, Cell.num 1, some "B", some "X", Cell.na,
  none, none, 5, false, none⟩

/-- A finisher row for driver "A" encountered second in the table. -/
def rowA : Row := ⟨Cell.num 2021, Cell.num 2, some "A", some "X", Cell.na,
  none, none, 5, false, none⟩

/-- Claim C6 fails as stated: drivers "B" and "A" are encountered in that
order and score equal points, but the ranking lists "A" before "B"
(ascending name order from the grouping step), not in encounter order. -/
theorem C6_counterexample :
    [rowB, rowA].filterMap Row.driver = ["B", "A"] ∧
    sumFor [rowB, rowA] "A" = sumFor [rowB, rowA] "B" ∧
    by_driver [rowB, rowA] = [("A", 5), ("B", 5)] := by
  refine ⟨by decide, ?_, ?_⟩
  · norm_num [sumFor, rowA, rowB, List.filter_cons, List.sum_cons, beq_iff_eq]
    simp
  · norm_num [by_driver, by_driver_all, by_driver_full, keyList, isort, insertSorted,
      strLT, ptsGT, sumFor, rowA, rowB, List.filter_cons, List.sum_cons, beq_iff_eq]
    simp

theorem C6_witness :
    ((("A" : String), (5 : ℚ))).2 = sumFor [rowB, rowA] "A" :=
  (C6_by_driver_ranking [rowB, rowA]).2.2.1 ("A", (5 : ℚ)) (by
    norm_num [by_driver, by_driver_all, by_driver_full, keyList, isort, insertSorted,
      strLT, ptsGT, sumFor, rowA, rowB, List.filter_cons, List.sum_cons, beq_iff_eq]
    simp)

/-- An extracted standings row keeps the `Points` of its source row. -/
theorem srowOf_points {r : Row} {s : SRow} (h : srowOf r = some s) :
    s.points = r.points := by
  unfold srowOf at h
  split at h
  · cases h
    rfl
  · cases h

theorem srows_points_nonneg (rows : List Row) (h : ∀ r ∈ rows, 0 ≤ r.points) :
    ∀ s ∈ srows rows, 0 ≤ s.points := by
  intro s hs
  obtain ⟨r, hr, hf⟩ := List.mem_filterMap.mp hs
  rw [srowOf_points hf]
  exact h r hr

theorem groupSR_points_nonneg (l : List SRow) (h : ∀ s ∈ l, 0 ≤ s.points) :
    ∀ g ∈ groupSR l, 0 ≤ g.points := by
  intro g hg
  unfold groupSR at hg
  obtain ⟨k, hk, rfl⟩ := List.mem_map.mp hg
  show 0 ≤ sumSFor l k
  apply List.sum_nonneg
  intro x hx
  obtain ⟨s, hsmem, rfl⟩ := List.mem_map.mp hx
  exact h s (List.mem_of_mem_filter hsmem)

theorem driver_points_nonneg (rows : List Row) (h : ∀ r ∈ rows, 0 ≤ r.points) :
    ∀ g ∈ driver_points rows, 0 ≤ g.points := by
  intro g hg
  exact groupSR_points_nonneg _ (srows_points_nonneg rows h) g (mem_isort.mp hg)

/-- The standings rows come out sorted by (Season, RaceKey). -/
theorem driver_points_sorted (rows : List Row) :
    (driver_points rows).Pairwise (fun a b => seasonRaceLT b a = false) := by
  have h := pairwise_isort seasonRaceLT (fun _ _ => True) seasonRaceLT_asymm
    seasonRaceLT_ctrans (groupSR (srows rows)) (pairwise_trivial _)
  exact h.imp (fun hab => hab.1)

/-- Claim C5 (amended): in the standings aggregate, for two entries of the
same (Season, Driver) in race order the race keys are ordered and — when
every source `Points` value is non-negative — the cumulative points are
non-decreasing. -/
theorem C5_cumulative_nondecreasing (rows : List Row)
    (hnn : ∀ r ∈ rows, 0 ≤ r.points)
    (i j : Fin (driver_points rows).length)
    (hij : i.1 ≤ j.1)
    (hs : ((driver_points rows).get i).season = ((driver_points rows).get j).season)
    (hd : ((driver_points rows).get i).driver = ((driver_points rows).get j).driver) :
    ((driver_points rows).get i).raceKey ≤ ((driver_points rows).get j).raceKey ∧
    CumPoints (driver_points rows) i ≤ CumPoints (driver_points rows) j := by
  rcases eq_or_lt_of_le hij with he | hlt
  · have hej : i = j := Fin.ext he
    subst hej
    exact ⟨le_refl _, le_refl _⟩
  · constructor
    · have hp := driver_points_sorted rows
      have hR := (List.pairwise_iff_get.mp hp) i j hlt
      exact raceKey_le_of_not_lt hR hs
    · unfold CumPoints
      rw [← hs, ← hd]
      have hsplit : (driver_points rows).take (j.1 + 1) =
          (driver_points rows).take (i.1 + 1) ++
            ((driver_points rows).drop (i.1 + 1)).take (j.1 - i.1) := by
        rw [← List.take_add]
        congr 1
        omega
      rw [hsplit, List.filter_append, List.map_append, List.sum_append]
      apply le_add_of_nonneg_right
      apply List.sum_nonneg
      intro x hx
      obtain ⟨s, hsmem, rfl⟩ := List.mem_map.mp hx
      have hsl : s ∈ driver_points rows :=
        List.mem_of_mem_drop (List.mem_of_mem_take (List.mem_of_mem_filter hsmem))
      exact driver_points_nonneg rows hnn s hsl

/-- Driver "A" scores 18 points in race 1 of season 2021. -/
def rowP1 : Row := ⟨Cell.num 2021, Cell.num 1, some "A", some "X", Cell.na,
  none, none, 18, false, none⟩

/-- Driver "A" scores 0 points in race 2 of season 2021. -/
def rowP2 : Row := ⟨Cell.num 2021, Cell.num 2, some "A", some "X", Cell.na,
  none, none, 0, false, none⟩

/-- Driver "A" scores −3 points in race 2 of season 2021. -/
def rowN2 : Row := ⟨Cell.num 2021, Cell.num 2, some "A", some "X", Cell.na,
  none, none, -3, false, none⟩

theorem C5_witness :
    CumPoints (driver_points [rowP1, rowP2]) ⟨0, by decide⟩ ≤
      CumPoints (driver_points [rowP1, rowP2]) ⟨1, by decide⟩ :=
  (C5_cumulative_nondecreasing [rowP1, rowP2] (by decide) ⟨0, by decide⟩ ⟨1, by decide⟩
    (by decide) (by decide) (by decide)).2

/-- Claim C5 fails as stated over arbitrary input tables: with a negative
`Points` value (which the pipeline does not rule out), the cumulative sum
strictly decreases between two races of the same (Season, Driver). -/
theorem C5_counterexample :
    ((driver_points [rowP1, rowN2]).get ⟨0, by decide⟩).season =
        ((driver_points [rowP1, rowN2]).get ⟨1, by decide⟩).season ∧
    ((driver_points [rowP1, rowN2]).get ⟨0, by decide⟩).driver =
        ((driver_points [rowP1, rowN2]).get ⟨1, by decide⟩).driver ∧
    ((driver_points [rowP1, rowN2]).get ⟨0, by decide⟩).raceKey <
        ((driver_points [rowP1, rowN2]).get ⟨1, by decide⟩).raceKey ∧
    CumPoints (driver_points [rowP1, rowN2]) ⟨1, by decide⟩ <
      CumPoints (driver_points [rowP1, rowN2]) ⟨0, by decide⟩ := by
  refine ⟨by decide, by decide, by decide, ?_⟩
  norm_num [CumPoints, driver_points, groupSR, srows, srowOf, sumSFor, sKey, isort,
    insertSorted, sKeyLT, seasonRaceLT, rowP1, rowN2, List.filter_cons, List.sum_cons,
    beq_iff_eq, pdToNumeric, List.filterMap_cons, Prod.mk.injEq]
